import Mathlib

/-!
Shallow embedding of the Polar H10 LSL streamer's decoding core: the PMD
combined-data frame decoder, the standard heart-rate record decoder, the
vector assembler with its per-channel latest-value cache, and the BLE session
action trace. Byte payloads are lists of naturals; Python floats are modelled
by an inductive value that is either NaN or an exact rational; a handler
returns its updated state, the list of 6-element vectors it pushed to the
outlet (in order), and a flag that is true when the handler raised an
exception.
-/

namespace Polar

/-- Little-endian unsigned integer value of a byte list, as Python's
int.from_bytes(bs, "little") computes it (0 for the empty list). -/
def leNat : List Nat → Nat
  | [] => 0
  | b :: bs => b + 256 * leNat bs

/-- Python's int.from_bytes(bs, "little", signed=True): two's-complement
interpretation of the little-endian value over 8 * bs.length bits. -/
def fromBytesSigned (bs : List Nat) : Int :=
  if leNat bs < 2 ^ (8 * bs.length - 1) then (leNat bs : Int)
  else (leNat bs : Int) - 2 ^ (8 * bs.length)

/-- Model of the Python floats flowing through this program: either NaN or an
exact rational (every numeric value the decoders produce is exact in binary
floating point at these magnitudes). -/
inductive PFloat where
  | nan : PFloat
  | num : ℚ → PFloat
deriving DecidableEq

/-- Model of math.isnan. -/
def PFloat.isnan : PFloat → Bool
  | .nan => true
  | .num _ => false

/-- The source's x-to-sink resolution step: 0.0 if math.isnan(x) else x. -/
def PFloat.resolve (x : PFloat) : PFloat :=
  if x.isnan then .num 0 else x

/-- The per-channel latest-value cache held on the app object: last_hr,
last_rri, last_acc (set in connect_to_device) and last_ecg, which is an
attribute that may not exist yet (none models hasattr(self, 'last_ecg')
being false). -/
structure St where
  last_hr : PFloat
  last_rri : PFloat
  last_acc : List PFloat
  last_ecg : Option PFloat
deriving DecidableEq

/-- Cache state right after connect_to_device: last_hr = 0.0, last_rri = 0.0,
last_acc = [0.0, 0.0, 0.0], and no last_ecg attribute yet. -/
def initSt : St :=
  { last_hr := .num 0, last_rri := .num 0
    last_acc := [.num 0, .num 0, .num 0], last_ecg := none }

/-- The NaN-resolved carried channels [hr_val, rri_val, *acc_vals] that push
appends after the ecg argument. -/
def carried (s : St) : List PFloat :=
  s.last_hr.resolve :: s.last_rri.resolve :: s.last_acc.map PFloat.resolve

/-- The vector assembler push(ecg): records ecg into last_ecg when it is
neither NaN nor 0.0, then emits [ecg, hr_val, rri_val, *acc_vals] with each
cached channel NaN-resolved to 0. Returns (new state, the emitted vector). -/
def push (s : St) (ecg : PFloat) : St × List PFloat :=
  (if ecg.isnan = false ∧ ecg ≠ .num 0 then { s with last_ecg := some ecg } else s,
   ecg :: carried s)

/-- The ECG branch of pmd_data_conv: for off in range(0, len(payload), 3),
decode payload[off:off+3] as a signed little-endian integer and push it.
A trailing group of 1 or 2 bytes is still one loop iteration and is decoded
from the short slice. Returns (state, emissions in order). -/
def runEcg (s : St) : List Nat → St × List (List PFloat)
  | [] => (s, [])
  | b0 :: b1 :: b2 :: rest =>
    let p := push s (.num (fromBytesSigned [b0, b1, b2]))
    let r := runEcg p.1 rest
    (r.1, p.2 :: r.2)
  | [b0] =>
    let p := push s (.num (fromBytesSigned [b0]))
    (p.1, [p.2])
  | [b0, b1] =>
    let p := push s (.num (fromBytesSigned [b0, b1]))
    (p.1, [p.2])

/-- The ACC branch of pmd_data_conv: for off in range(0, len(payload), 6),
struct.unpack_from("<hhh", payload, off) yields three signed 16-bit
little-endian integers stored into last_acc, then push is called with
last_ecg if that attribute exists, else 0.0. When fewer than 6 bytes remain
at a loop offset, unpack_from raises struct.error (third component true). -/
def runAcc (s : St) : List Nat → St × List (List PFloat) × Bool
  | [] => (s, [], false)
  | b0 :: b1 :: b2 :: b3 :: b4 :: b5 :: rest =>
    let s1 := { s with last_acc :=
      [.num (fromBytesSigned [b0, b1]), .num (fromBytesSigned [b2, b3]),
       .num (fromBytesSigned [b4, b5])] }
    let p := push s1 (s1.last_ecg.getD (.num 0))
    let r := runAcc p.1 rest
    (r.1, p.2 :: r.2.1, r.2.2)
  | [_b0] => (s, [], true)
  | [_b0, _b1] => (s, [], true)
  | [_b0, _b1, _b2] => (s, [], true)
  | [_b0, _b1, _b2, _b3] => (s, [], true)
  | [_b0, _b1, _b2, _b3, _b4] => (s, [], true)

/-- Notification handler pmd_data_conv(data): data[0] selects the frame type;
0x00 decodes data[10:] as ECG samples, 0x01 as ACC triples, any other tag is
ignored. An empty payload raises IndexError at data[0]. -/
def pmd_data_conv (s : St) (data : List Nat) : St × List (List PFloat) × Bool :=
  match data with
  | [] => (s, [], true)
  | hdr :: rest =>
    if hdr = 0 then
      let r := runEcg s (rest.drop 9)
      (r.1, r.2, false)
    else if hdr = 1 then runAcc s (rest.drop 9)
    else (s, [], false)

/-- The RR-interval loop of hrm_conv, as recursion on the byte suffix at the
current index: while idx + 1 < len(data), read a 16-bit little-endian raw
value, store raw / 1024.0 * 1000 into last_rri and push with the carried
last_ecg (or 0.0 when absent). -/
def rrLoop (s : St) : List Nat → St × List (List PFloat)
  | a :: b :: rest =>
    let s1 := { s with last_rri := .num ((leNat [a, b] : ℚ) / 1024 * 1000) }
    let p := push s1 (s1.last_ecg.getD (.num 0))
    let r := rrLoop p.1 rest
    (r.1, p.2 :: r.2)
  | [] => (s, [])
  | [_a] => (s, [])

/-- Notification handler hrm_conv(data): data[0] is the flags byte; flags bit
0 selects a 2-byte little-endian HR read from data[1:3] (a short or empty
slice decodes to its partial value) versus a 1-byte read data[1] (IndexError
when absent); one push follows, then, if flags bit 4 is set, the RR loop
starting at idx = 3 or 2. -/
def hrm_conv (s : St) (data : List Nat) : St × List (List PFloat) × Bool :=
  match data with
  | [] => (s, [], true)
  | flags :: rest =>
    if flags &&& 1 ≠ 0 then
      let s1 := { s with last_hr := .num (leNat (rest.take 2) : ℚ) }
      let p := push s1 (s1.last_ecg.getD (.num 0))
      if flags &&& 16 ≠ 0 then
        let r := rrLoop p.1 (rest.drop 2)
        (r.1, p.2 :: r.2, false)
      else (p.1, [p.2], false)
    else
      match rest with
      | [] => (s, [], true)
      | b :: rest2 =>
        let s1 := { s with last_hr := .num (b : ℚ) }
        let p := push s1 (s1.last_ecg.getD (.num 0))
        if flags &&& 16 ≠ 0 then
          let r := rrLoop p.1 rest2
          (r.1, p.2 :: r.2, false)
        else (p.1, [p.2], false)

/-- A raw notification delivered by the transport to one of the two
subscribed characteristics. -/
inductive Event where
  | pmd : List Nat → Event
  | hrm : List Nat → Event
deriving DecidableEq

/-- Dispatch one notification to its handler. -/
def step (s : St) : Event → St × List (List PFloat) × Bool
  | .pmd d => pmd_data_conv s d
  | .hrm d => hrm_conv s d

/-- Process a list of notifications in arrival order, concatenating the
emitted vectors; a handler that raises keeps its state changes and the
session continues with the next notification. -/
def run (s : St) : List Event → St × List (List PFloat)
  | [] => (s, [])
  | e :: es =>
    let r := step s e
    let rr := run r.1 es
    (rr.1, r.2.1 ++ rr.2)

/-- True when no heart-rate notification occurs in the list. -/
def noHrm (evs : List Event) : Bool :=
  evs.all fun e => match e with | .hrm _ => false | .pmd _ => true

/-- UUID of the Polar PMD control characteristic. -/
def PMD_CONTROL : String := "FB005C81-02E7-F387-1CAD-8ACD2D8DF0C8"

/-- UUID of the Polar PMD combined-data characteristic. -/
def PMD_DATA : String := "FB005C82-02E7-F387-1CAD-8ACD2D8DF0C8"

/-- UUID of the standard heart-rate measurement characteristic. -/
def HRM_CHAR : String := "00002A37-0000-1000-8000-00805f9b34fb"

/-- The fixed ECG start command written to PMD_CONTROL (130 Hz). -/
def ECG_WRITE : List Nat := [0x02, 0x00, 0x00, 0x01, 0x82, 0x00, 0x01, 0x01, 0x0E, 0x00]

/-- The fixed ACC start command written to PMD_CONTROL (52 Hz, plus-minus 8 g). -/
def ACC_WRITE : List Nat :=
  [0x02, 0x02, 0x00, 0x01, 0xC8, 0x00, 0x01, 0x01, 0x10, 0x00, 0x02, 0x01, 0x08, 0x00]

/-- One BLE operation performed by the session. -/
inductive BleAction where
  | readGatt : String → BleAction
  | writeGatt : String → List Nat → BleAction
  | startNotify : String → BleAction
  | waitStop : BleAction
  | stopNotify : String → BleAction
  | disconnect : BleAction
deriving DecidableEq

/-- The ordered BLE operations of async_connect on its success path: read the
control characteristic, write the two start commands, subscribe to the data
and heart-rate characteristics, wait for the stop event, unsubscribe both,
and leave the BleakClient context (which closes the connection). -/
def async_connect_trace : List BleAction :=
  [.readGatt PMD_CONTROL,
   .writeGatt PMD_CONTROL ECG_WRITE,
   .writeGatt PMD_CONTROL ACC_WRITE,
   .startNotify PMD_DATA,
   .startNotify HRM_CHAR,
   .waitStop,
   .stopNotify PMD_DATA,
   .stopNotify HRM_CHAR,
   .disconnect]

/-! ### Basic facts about push -/

theorem push_fst (s : St) (e : PFloat) :
    (push s e).1 =
      if e.isnan = false ∧ e ≠ .num 0 then { s with last_ecg := some e } else s := rfl

theorem push_snd (s : St) (e : PFloat) : (push s e).2 = e :: carried s := rfl

theorem push_last_hr (s : St) (e : PFloat) : (push s e).1.last_hr = s.last_hr := by
  rw [push_fst]; split <;> rfl

theorem push_last_rri (s : St) (e : PFloat) : (push s e).1.last_rri = s.last_rri := by
  rw [push_fst]; split <;> rfl

theorem push_last_acc (s : St) (e : PFloat) : (push s e).1.last_acc = s.last_acc := by
  rw [push_fst]; split <;> rfl

theorem carried_push (s : St) (e : PFloat) : carried (push s e).1 = carried s := by
  unfold carried
  rw [push_last_hr, push_last_rri, push_last_acc]

/-- Pushing the carried last_ecg value (or the 0.0 default) leaves last_ecg
unchanged: a 0.0 default fails the update guard, and a stored value is
re-stored as itself. -/
theorem push_carry (s : St) :
    (push s (s.last_ecg.getD (.num 0))).1.last_ecg = s.last_ecg := by
  rw [push_fst]
  cases h : s.last_ecg with
  | none => simp [h]
  | some v => split <;> simp [h]

/-! ### Characterization of the ECG branch -/

theorem runEcg_spec : ∀ (l : List Nat) (s : St),
    ((runEcg s l).2).length = (l.length + 2) / 3 ∧
    (runEcg s l).1.last_hr = s.last_hr ∧
    (runEcg s l).1.last_rri = s.last_rri ∧
    (runEcg s l).1.last_acc = s.last_acc ∧
    ∀ i, i < (l.length + 2) / 3 →
      ((runEcg s l).2)[i]? =
        some (.num (fromBytesSigned ((l.drop (3 * i)).take 3)) :: carried s)
  | [], s => by simp [runEcg]
  | b0 :: b1 :: b2 :: rest, s => by
    obtain ⟨ih1, ih2, ih3, ih4, ih5⟩ :=
      runEcg_spec rest (push s (.num (fromBytesSigned [b0, b1, b2]))).1
    refine ⟨?_, ?_, ?_, ?_, ?_⟩
    · simp only [runEcg, List.length_cons, ih1]
      omega
    · simpa [runEcg, push_last_hr] using ih2
    · simpa [runEcg, push_last_rri] using ih3
    · simpa [runEcg, push_last_acc] using ih4
    · intro i hi
      match i with
      | 0 => simp [runEcg, push_snd]
      | i + 1 =>
        have hi2 : i < (rest.length + 2) / 3 := by
          simp only [List.length_cons] at hi
          omega
        have h3 : 3 * (i + 1) = 3 * i + 1 + 1 + 1 := by ring
        simp only [runEcg, List.getElem?_cons_succ, h3, List.drop_succ_cons]
        rw [ih5 i hi2, carried_push]
  | [b0], s => by
    refine ⟨by simp [runEcg], push_last_hr .., push_last_rri .., push_last_acc .., ?_⟩
    intro i hi
    have : i = 0 := by
      simp only [List.length_cons, List.length_nil] at hi
      omega
    subst this
    simp [runEcg, push_snd]
  | [b0, b1], s => by
    refine ⟨by simp [runEcg], push_last_hr .., push_last_rri .., push_last_acc .., ?_⟩
    intro i hi
    have : i = 0 := by
      simp only [List.length_cons, List.length_nil] at hi
      omega
    subst this
    simp [runEcg, push_snd]

/-! ### Characterization of the ACC branch -/

theorem runAcc_spec : ∀ (l : List Nat) (s : St),
    ((runAcc s l).2.1).length = l.length / 6 ∧
    ((runAcc s l).2.2 = true ↔ l.length % 6 ≠ 0) ∧
    (runAcc s l).1.last_hr = s.last_hr ∧
    (runAcc s l).1.last_rri = s.last_rri ∧
    (runAcc s l).1.last_ecg = s.last_ecg ∧
    ∀ i, i < l.length / 6 →
      ((runAcc s l).2.1)[i]? =
        some (s.last_ecg.getD (.num 0) :: s.last_hr.resolve :: s.last_rri.resolve ::
          [.num (fromBytesSigned ((l.drop (6 * i)).take 2)),
           .num (fromBytesSigned ((l.drop (6 * i + 2)).take 2)),
           .num (fromBytesSigned ((l.drop (6 * i + 4)).take 2))])
  | [], s => by simp [runAcc]
  | b0 :: b1 :: b2 :: b3 :: b4 :: b5 :: rest, s => by
    simp only [runAcc]
    set s1 : St := { s with last_acc :=
      [.num (fromBytesSigned [b0, b1]), .num (fromBytesSigned [b2, b3]),
       .num (fromBytesSigned [b4, b5])] } with hs1
    set p := push s1 (s1.last_ecg.getD (.num 0)) with hp
    obtain ⟨ih1, ih2, ih3, ih4, ih5, ih6⟩ := runAcc_spec rest p.1
    have hhr : p.1.last_hr = s.last_hr := by rw [hp, push_last_hr]
    have hrri : p.1.last_rri = s.last_rri := by rw [hp, push_last_rri]
    have hecg : p.1.last_ecg = s.last_ecg := by rw [hp, push_carry]
    refine ⟨?_, ?_, ?_, ?_, ?_, ?_⟩
    · simp only [List.length_cons, ih1]
      omega
    · simp only [List.length_cons, ih2]
      constructor <;> intro h <;> omega
    · rw [ih3, hhr]
    · rw [ih4, hrri]
    · rw [ih5, hecg]
    · intro i hi
      match i with
      | 0 =>
        rw [hp, push_snd]
        simp [carried, hs1, PFloat.resolve, PFloat.isnan]
      | i + 1 =>
        have hi2 : i < rest.length / 6 := by
          simp only [List.length_cons] at hi
          omega
        have h60 : 6 * (i + 1) = 6 * i + 1 + 1 + 1 + 1 + 1 + 1 := by ring
        have h62 : 6 * (i + 1) + 2 = 6 * i + 2 + 1 + 1 + 1 + 1 + 1 + 1 := by ring
        have h64 : 6 * (i + 1) + 4 = 6 * i + 4 + 1 + 1 + 1 + 1 + 1 + 1 := by ring
        simp only [List.getElem?_cons_succ, h60, h62, h64, List.drop_succ_cons]
        rw [ih6 i hi2, hhr, hrri, hecg]
  | [_b0], s => by
    refine ⟨by simp [runAcc], by simp [runAcc], by simp [runAcc], by simp [runAcc], by simp [runAcc], ?_⟩
    intro i hi
    simp only [List.length_cons, List.length_nil] at hi
    omega
  | [_b0, _b1], s => by
    refine ⟨by simp [runAcc], by simp [runAcc], by simp [runAcc], by simp [runAcc], by simp [runAcc], ?_⟩
    intro i hi
    simp only [List.length_cons, List.length_nil] at hi
    omega
  | [_b0, _b1, _b2], s => by
    refine ⟨by simp [runAcc], by simp [runAcc], by simp [runAcc], by simp [runAcc], by simp [runAcc], ?_⟩
    intro i hi
    simp only [List.length_cons, List.length_nil] at hi
    omega
  | [_b0, _b1, _b2, _b3], s => by
    refine ⟨by simp [runAcc], by simp [runAcc], by simp [runAcc], by simp [runAcc], by simp [runAcc], ?_⟩
    intro i hi
    simp only [List.length_cons, List.length_nil] at hi
    omega
  | [_b0, _b1, _b2, _b3, _b4], s => by
    refine ⟨by simp [runAcc], by simp [runAcc], by simp [runAcc], by simp [runAcc], by simp [runAcc], ?_⟩
    intro i hi
    simp only [List.length_cons, List.length_nil] at hi
    omega

/-! ### Characterization of the RR-interval loop -/

theorem rrLoop_spec : ∀ (l : List Nat) (s : St),
    ((rrLoop s l).2).length = l.length / 2 ∧
    (rrLoop s l).1.last_hr = s.last_hr ∧
    (rrLoop s l).1.last_acc = s.last_acc ∧
    (rrLoop s l).1.last_ecg = s.last_ecg ∧
    ∀ j, j < l.length / 2 →
      ((rrLoop s l).2)[j]? =
        some (s.last_ecg.getD (.num 0) :: s.last_hr.resolve ::
          .num ((leNat ((l.drop (2 * j)).take 2) : ℚ) / 1024 * 1000) ::
          s.last_acc.map PFloat.resolve)
  | [], s => by simp [rrLoop]
  | a :: b :: rest, s => by
    simp only [rrLoop]
    set s1 : St := { s with last_rri := .num ((leNat [a, b] : ℚ) / 1024 * 1000) } with hs1
    set p := push s1 (s1.last_ecg.getD (.num 0)) with hp
    obtain ⟨ih1, ih2, ih3, ih4, ih5⟩ := rrLoop_spec rest p.1
    have hhr : p.1.last_hr = s.last_hr := by rw [hp, push_last_hr]
    have hacc : p.1.last_acc = s.last_acc := by rw [hp, push_last_acc]
    have hecg : p.1.last_ecg = s.last_ecg := by rw [hp, push_carry]
    refine ⟨?_, ?_, ?_, ?_, ?_⟩
    · simp only [List.length_cons, ih1]
      omega
    · rw [ih2, hhr]
    · rw [ih3, hacc]
    · rw [ih4, hecg]
    · intro j hj
      match j with
      | 0 =>
        rw [hp, push_snd]
        simp [carried, hs1, PFloat.resolve, PFloat.isnan]
      | j + 1 =>
        have hj2 : j < rest.length / 2 := by
          simp only [List.length_cons] at hj
          omega
        have h20 : 2 * (j + 1) = 2 * j + 1 + 1 := by ring
        simp only [List.getElem?_cons_succ, h20, List.drop_succ_cons]
        rw [ih5 j hj2, hhr, hacc, hecg]
  | [_a], s => by
    refine ⟨by simp [rrLoop], by simp [rrLoop], by simp [rrLoop], by simp [rrLoop], ?_⟩
    intro j hj
    simp only [List.length_cons, List.length_nil] at hj
    omega

/-! ### Reachable-state invariant and sink-acceptable vectors -/

/-- Cache states this program can actually reach: no NaN in any channel and a
3-element accelerometer triple. -/
def StGood (s : St) : Prop :=
  s.last_hr.isnan = false ∧ s.last_rri.isnan = false ∧
  s.last_acc.length = 3 ∧ (∀ x ∈ s.last_acc, x.isnan = false) ∧
  ∀ e, s.last_ecg = some e → e.isnan = false

/-- A vector the sink contract accepts: exactly 6 entries, all numeric. -/
def VecOK (v : List PFloat) : Prop :=
  v.length = 6 ∧ ∀ x ∈ v, x.isnan = false

theorem resolve_not_nan (x : PFloat) : x.resolve.isnan = false := by
  cases x <;> simp [PFloat.resolve, PFloat.isnan]

theorem initSt_good : StGood initSt := by
  refine ⟨rfl, rfl, rfl, ?_, ?_⟩ <;> simp [initSt, PFloat.isnan]

theorem getD_not_nan (s : St) (hs : StGood s) :
    (s.last_ecg.getD (.num 0)).isnan = false := by
  cases h : s.last_ecg with
  | none => rfl
  | some v => exact hs.2.2.2.2 v h

theorem push_good (s : St) (e : PFloat) (hs : StGood s) : StGood (push s e).1 := by
  obtain ⟨h1, h2, h3, h4, h5⟩ := hs
  rw [push_fst]
  split
  · next h =>
    exact ⟨h1, h2, h3, h4, fun x hx => (Option.some.inj hx) ▸ h.1⟩
  · exact ⟨h1, h2, h3, h4, h5⟩

theorem carried_ok (s : St) (hacc : s.last_acc.length = 3) :
    (carried s).length = 5 ∧ ∀ x ∈ carried s, x.isnan = false := by
  constructor
  · simp [carried, hacc]
  · intro x hx
    simp only [carried, List.mem_cons, List.mem_map] at hx
    rcases hx with rfl | rfl | ⟨y, _, rfl⟩ <;> exact resolve_not_nan _

theorem push_vec_ok (s : St) (e : PFloat) (hacc : s.last_acc.length = 3)
    (he : e.isnan = false) : VecOK (push s e).2 := by
  rw [push_snd]
  obtain ⟨hl, hm⟩ := carried_ok s hacc
  constructor
  · simp [hl]
  · intro x hx
    rcases List.mem_cons.1 hx with rfl | hx
    · exact he
    · exact hm x hx

theorem runEcg_good : ∀ (l : List Nat) (s : St), StGood s → StGood (runEcg s l).1
  | [], _, hs => hs
  | _ :: _ :: _ :: rest, s, hs => by
    simp only [runEcg]
    exact runEcg_good rest _ (push_good s _ hs)
  | [_], s, hs => by
    simp only [runEcg]
    exact push_good s _ hs
  | [_, _], s, hs => by
    simp only [runEcg]
    exact push_good s _ hs

theorem runAcc_good : ∀ (l : List Nat) (s : St), StGood s → StGood (runAcc s l).1
  | [], _, hs => hs
  | b0 :: b1 :: b2 :: b3 :: b4 :: b5 :: rest, s, hs => by
    simp only [runAcc]
    apply runAcc_good rest
    apply push_good
    obtain ⟨h1, h2, _, _, h5⟩ := hs
    exact ⟨h1, h2, rfl, by simp [PFloat.isnan], h5⟩
  | [_], _, hs => hs
  | [_, _], _, hs => hs
  | [_, _, _], _, hs => hs
  | [_, _, _, _], _, hs => hs
  | [_, _, _, _, _], _, hs => hs

theorem rrLoop_good : ∀ (l : List Nat) (s : St), StGood s → StGood (rrLoop s l).1
  | [], _, hs => hs
  | a :: b :: rest, s, hs => by
    simp only [rrLoop]
    apply rrLoop_good rest
    apply push_good
    obtain ⟨h1, _, h3, h4, h5⟩ := hs
    exact ⟨h1, rfl, h3, h4, h5⟩
  | [_], _, hs => hs

/-! ### Handler-level consequences -/

theorem pmd_ecg (s : St) (rest : List Nat) :
    pmd_data_conv s (0 :: rest) =
      ((runEcg s (rest.drop 9)).1, (runEcg s (rest.drop 9)).2, false) := by
  simp [pmd_data_conv]

theorem pmd_acc (s : St) (rest : List Nat) :
    pmd_data_conv s (1 :: rest) = runAcc s (rest.drop 9) := by
  simp [pmd_data_conv]

theorem pmd_other (s : St) (hdr : Nat) (rest : List Nat) (h0 : hdr ≠ 0) (h1 : hdr ≠ 1) :
    pmd_data_conv s (hdr :: rest) = (s, [], false) := by
  simp [pmd_data_conv, h0, h1]

theorem pmd_good (s : St) (d : List Nat) (hs : StGood s) :
    StGood (pmd_data_conv s d).1 := by
  match d with
  | [] => exact hs
  | hdr :: rest =>
    by_cases h0 : hdr = 0
    · subst h0
      rw [pmd_ecg]
      exact runEcg_good _ _ hs
    · by_cases h1 : hdr = 1
      · subst h1
        rw [pmd_acc]
        exact runAcc_good _ _ hs
      · rw [pmd_other s hdr rest h0 h1]
        exact hs

theorem pmd_last_hr (s : St) (d : List Nat) :
    (pmd_data_conv s d).1.last_hr = s.last_hr := by
  match d with
  | [] => rfl
  | hdr :: rest =>
    by_cases h0 : hdr = 0
    · subst h0
      rw [pmd_ecg]
      exact (runEcg_spec _ s).2.1
    · by_cases h1 : hdr = 1
      · subst h1
        rw [pmd_acc]
        exact (runAcc_spec (rest.drop 9) s).2.2.1
      · rw [pmd_other s hdr rest h0 h1]

/-- Turn list membership into an index with a getElem? fact. -/
theorem mem_index {α : Type} {l : List α} {a : α} (h : a ∈ l) :
    ∃ i, i < l.length ∧ l[i]? = some a := by
  obtain ⟨i, hi, he⟩ := List.mem_iff_getElem.1 h
  exact ⟨i, hi, by rw [List.getElem?_eq_getElem hi, he]⟩

theorem pmd_emits_hr_field (s : St) (d : List Nat) :
    ∀ v ∈ (pmd_data_conv s d).2.1, v[1]? = some s.last_hr.resolve := by
  intro v hv
  match d with
  | [] => simp [pmd_data_conv] at hv
  | hdr :: rest =>
    by_cases h0 : hdr = 0
    · subst h0
      rw [pmd_ecg] at hv
      obtain ⟨i, hilen, hi⟩ := mem_index hv
      obtain ⟨hlen, _, _, _, hidx⟩ := runEcg_spec (rest.drop 9) s
      rw [hidx i (hlen ▸ hilen)] at hi
      rw [← Option.some.inj hi]
      simp [carried]
    · by_cases h1 : hdr = 1
      · subst h1
        rw [pmd_acc] at hv
        obtain ⟨i, hilen, hi⟩ := mem_index hv
        obtain ⟨hlen, _, _, _, _, hidx⟩ := runAcc_spec (rest.drop 9) s
        rw [hidx i (hlen ▸ hilen)] at hi
        rw [← Option.some.inj hi]
        simp
      · rw [pmd_other s hdr rest h0 h1] at hv
        simp at hv

theorem pmd_emits_ok (s : St) (d : List Nat) (hs : StGood s) :
    ∀ v ∈ (pmd_data_conv s d).2.1, VecOK v := by
  intro v hv
  match d with
  | [] => simp [pmd_data_conv] at hv
  | hdr :: rest =>
    by_cases h0 : hdr = 0
    · subst h0
      rw [pmd_ecg] at hv
      obtain ⟨i, hilen, hi⟩ := mem_index hv
      obtain ⟨hlen, _, _, _, hidx⟩ := runEcg_spec (rest.drop 9) s
      rw [hidx i (hlen ▸ hilen)] at hi
      rw [← Option.some.inj hi]
      obtain ⟨hcl, hcm⟩ := carried_ok s hs.2.2.1
      refine ⟨by simp [hcl], ?_⟩
      intro x hx
      rcases List.mem_cons.1 hx with rfl | hx
      · rfl
      · exact hcm x hx
    · by_cases h1 : hdr = 1
      · subst h1
        rw [pmd_acc] at hv
        obtain ⟨i, hilen, hi⟩ := mem_index hv
        obtain ⟨hlen, _, _, _, _, hidx⟩ := runAcc_spec (rest.drop 9) s
        rw [hidx i (hlen ▸ hilen)] at hi
        rw [← Option.some.inj hi]
        refine ⟨rfl, ?_⟩
        intro x hx
        simp only [List.mem_cons, List.mem_singleton] at hx
        rcases hx with rfl | rfl | rfl | rfl | rfl | rfl | h
        · exact getD_not_nan s hs
        · exact resolve_not_nan _
        · exact resolve_not_nan _
        · rfl
        · rfl
        · rfl
        · simp at h
      · rw [pmd_other s hdr rest h0 h1] at hv
        simp at hv

theorem st_hr_good (s : St) (hs : StGood s) (q : ℚ) :
    StGood ({ s with last_hr := .num q } : St) :=
  ⟨rfl, hs.2.1, hs.2.2.1, hs.2.2.2.1, hs.2.2.2.2⟩

theorem hrm_good (s : St) (d : List Nat) (hs : StGood s) :
    StGood (hrm_conv s d).1 := by
  match d with
  | [] => exact hs
  | [flags] =>
    by_cases h1 : flags &&& 1 ≠ 0
    · by_cases h16 : flags &&& 16 ≠ 0
      · simp only [hrm_conv, if_pos h1, if_pos h16]
        exact rrLoop_good _ _ (push_good _ _ (st_hr_good s hs _))
      · simp only [hrm_conv, if_pos h1, if_neg h16]
        exact push_good _ _ (st_hr_good s hs _)
    · simp only [hrm_conv, if_neg h1]
      exact hs
  | flags :: b :: rest2 =>
    by_cases h1 : flags &&& 1 ≠ 0
    · by_cases h16 : flags &&& 16 ≠ 0
      · simp only [hrm_conv, if_pos h1, if_pos h16]
        exact rrLoop_good _ _ (push_good _ _ (st_hr_good s hs _))
      · simp only [hrm_conv, if_pos h1, if_neg h16]
        exact push_good _ _ (st_hr_good s hs _)
    · by_cases h16 : flags &&& 16 ≠ 0
      · simp only [hrm_conv, if_neg h1, if_pos h16]
        exact rrLoop_good _ _ (push_good _ _ (st_hr_good s hs _))
      · simp only [hrm_conv, if_neg h1, if_neg h16]
        exact push_good _ _ (st_hr_good s hs _)

theorem hrm_emits_ok (s : St) (d : List Nat) (hs : StGood s) :
    ∀ v ∈ (hrm_conv s d).2.1, VecOK v := by
  have key : ∀ (s1 : St), StGood s1 → ∀ (tail : List Nat) (v : List PFloat),
      v ∈ (push s1 (s1.last_ecg.getD (.num 0))).2 ::
        (rrLoop (push s1 (s1.last_ecg.getD (.num 0))).1 tail).2 → VecOK v := by
    intro s1 hs1 tail v hv
    rcases List.mem_cons.1 hv with rfl | hv
    · exact push_vec_ok s1 _ hs1.2.2.1 (getD_not_nan s1 hs1)
    · have hp : StGood (push s1 (s1.last_ecg.getD (.num 0))).1 := push_good _ _ hs1
      obtain ⟨i, hilen, hi⟩ := mem_index hv
      obtain ⟨hlen, _, _, _, hidx⟩ := rrLoop_spec tail (push s1 (s1.last_ecg.getD (.num 0))).1
      rw [hidx i (hlen ▸ hilen)] at hi
      rw [← Option.some.inj hi]
      refine ⟨?_, ?_⟩
      · simp [push_last_acc, hs1.2.2.1]
      · intro x hx
        simp only [List.mem_cons, List.mem_map] at hx
        rcases hx with rfl | rfl | rfl | ⟨y, _, rfl⟩
        · exact getD_not_nan _ hp
        · exact resolve_not_nan _
        · rfl
        · exact resolve_not_nan _
  intro v hv
  match d with
  | [] => simp [hrm_conv] at hv
  | [flags] =>
    by_cases h1 : flags &&& 1 ≠ 0
    · by_cases h16 : flags &&& 16 ≠ 0
      · simp only [hrm_conv, if_pos h1, if_pos h16] at hv
        exact key _ (st_hr_good s hs _) _ v hv
      · simp only [hrm_conv, if_pos h1, if_neg h16] at hv
        rcases List.mem_singleton.1 hv with rfl
        exact push_vec_ok _ _ hs.2.2.1 (getD_not_nan s hs)
    · simp only [hrm_conv, if_neg h1] at hv
      simp at hv
  | flags :: b :: rest2 =>
    by_cases h1 : flags &&& 1 ≠ 0
    · by_cases h16 : flags &&& 16 ≠ 0
      · simp only [hrm_conv, if_pos h1, if_pos h16] at hv
        exact key _ (st_hr_good s hs _) _ v hv
      · simp only [hrm_conv, if_pos h1, if_neg h16] at hv
        rcases List.mem_singleton.1 hv with rfl
        exact push_vec_ok _ _ hs.2.2.1 (getD_not_nan s hs)
    · by_cases h16 : flags &&& 16 ≠ 0
      · simp only [hrm_conv, if_neg h1, if_pos h16] at hv
        exact key _ (st_hr_good s hs _) _ v hv
      · simp only [hrm_conv, if_neg h1, if_neg h16] at hv
        rcases List.mem_singleton.1 hv with rfl
        exact push_vec_ok _ _ hs.2.2.1 (getD_not_nan s hs)

/-! ### Whole-session runs -/

theorem step_good (s : St) (e : Event) (hs : StGood s) : StGood (step s e).1 := by
  cases e with
  | pmd d => exact pmd_good s d hs
  | hrm d => exact hrm_good s d hs

theorem step_emits_ok (s : St) (e : Event) (hs : StGood s) :
    ∀ v ∈ (step s e).2.1, VecOK v := by
  cases e with
  | pmd d => exact pmd_emits_ok s d hs
  | hrm d => exact hrm_emits_ok s d hs

theorem run_spec : ∀ (evs : List Event) (s : St), StGood s →
    StGood (run s evs).1 ∧ ∀ v ∈ (run s evs).2, VecOK v
  | [], s, hs => ⟨hs, by simp [run]⟩
  | e :: es, s, hs => by
    simp only [run]
    obtain ⟨ih1, ih2⟩ := run_spec es (step s e).1 (step_good s e hs)
    refine ⟨ih1, ?_⟩
    intro v hv
    rcases List.mem_append.1 hv with hv | hv
    · exact step_emits_ok s e hs v hv
    · exact ih2 v hv

theorem run_noHrm_hr : ∀ (evs : List Event) (s : St), noHrm evs = true →
    (run s evs).1.last_hr = s.last_hr ∧
    ∀ v ∈ (run s evs).2, v[1]? = some s.last_hr.resolve
  | [], s, _ => ⟨rfl, by simp [run]⟩
  | e :: es, s, h => by
    match e with
    | .hrm d => simp [noHrm] at h
    | .pmd d =>
      have hes : noHrm es = true := by simpa [noHrm] using h
      simp only [run]
      obtain ⟨ih1, ih2⟩ := run_noHrm_hr es (step s (.pmd d)).1 hes
      have hp : (step s (.pmd d)).1.last_hr = s.last_hr := pmd_last_hr s d
      refine ⟨by rw [ih1, hp], ?_⟩
      intro v hv
      rcases List.mem_append.1 hv with hv | hv
      · exact pmd_emits_hr_field s d v hv
      · rw [ih2 v hv, hp]

theorem resolve_num (q : ℚ) : (PFloat.num q).resolve = .num q := rfl

/-! ## Claims -/

/-- Claim C7: a non-empty combined-data payload whose leading type tag is
neither 0x00 (ECG) nor 0x01 (ACC) produces zero samples, zero emissions, no
failure, and leaves the channel state cache unchanged. -/
theorem C7_unknown_tag_ignored (s : St) (hdr : Nat) (rest : List Nat)
    (h0 : hdr ≠ 0) (h1 : hdr ≠ 1) :
    pmd_data_conv s (hdr :: rest) = (s, [], false) :=
  pmd_other s hdr rest h0 h1

/-- Witness for C7 at the concrete tag 0x02. -/
theorem C7_unknown_tag_ignored_witness :
    (2 ≠ 0) ∧ (2 ≠ 1) ∧ pmd_data_conv initSt (2 :: [7, 7]) = (initSt, [], false) :=
  ⟨by decide, by decide, C7_unknown_tag_ignored initSt 2 [7, 7] (by decide) (by decide)⟩

/-- Claim C1, counterexample: an ECG frame whose sample region has length
L = 1 produces 1 emission while the claim's floor(L/3) predicts 0 and says
the remainder produces no sample; the code decodes the 1-byte tail. -/
theorem C1_floor_count_cex :
    (pmd_data_conv initSt [0, 0, 0, 0, 0, 0, 0, 0, 0, 0, 5]).2.1.length = 1 ∧
    (([0, 0, 0, 0, 0, 0, 0, 0, 0, 0, 5] : List Nat).drop 10).length / 3 = 0 := by
  constructor <;> decide

/-- Claim C1 (amended): for an ECG-tagged payload whose sample region has
length L, the decoder emits exactly ceil(L/3) = (L+2)/3 samples and no
error; the i-th emission's ECG field is the signed little-endian integer
decoded from the 3-byte slice at offset 3i, a trailing group of 1 or 2
bytes being decoded from the short slice rather than dropped. -/
theorem C1_ecg_sample_count (s : St) (data : List Nat) (i : Nat)
    (h : data.head? = some 0) :
    (pmd_data_conv s data).2.2 = false ∧
    (pmd_data_conv s data).2.1.length = ((data.drop 10).length + 2) / 3 ∧
    (i < ((data.drop 10).length + 2) / 3 →
      (pmd_data_conv s data).2.1[i]? =
        some (.num (fromBytesSigned (((data.drop 10).drop (3 * i)).take 3)) :: carried s)) := by
  match data with
  | [] => simp at h
  | hdr :: rest =>
    have h0 : hdr = 0 := by simpa using h
    subst h0
    have hdrop : ((0 : Nat) :: rest).drop 10 = rest.drop 9 := rfl
    rw [pmd_ecg, hdrop]
    obtain ⟨hlen, _, _, _, hidx⟩ := runEcg_spec (rest.drop 9) s
    exact ⟨rfl, hlen, fun hi => hidx i hi⟩

/-- Witness for C1 on a 4-byte sample region: 2 emissions, the second decoded
from the 1-byte tail. -/
theorem C1_ecg_sample_count_witness :
    (([0, 0, 0, 0, 0, 0, 0, 0, 0, 0, 1, 2, 3, 4] : List Nat).head? = some 0) ∧
    ((pmd_data_conv initSt [0, 0, 0, 0, 0, 0, 0, 0, 0, 0, 1, 2, 3, 4]).2.2 = false ∧
     (pmd_data_conv initSt [0, 0, 0, 0, 0, 0, 0, 0, 0, 0, 1, 2, 3, 4]).2.1.length =
       ((([0, 0, 0, 0, 0, 0, 0, 0, 0, 0, 1, 2, 3, 4] : List Nat).drop 10).length + 2) / 3 ∧
     (1 < ((([0, 0, 0, 0, 0, 0, 0, 0, 0, 0, 1, 2, 3, 4] : List Nat).drop 10).length + 2) / 3 →
       (pmd_data_conv initSt [0, 0, 0, 0, 0, 0, 0, 0, 0, 0, 1, 2, 3, 4]).2.1[1]? =
         some (.num (fromBytesSigned
             (((([0, 0, 0, 0, 0, 0, 0, 0, 0, 0, 1, 2, 3, 4] : List Nat).drop 10).drop (3 * 1)).take 3)) ::
           carried initSt))) :=
  ⟨rfl, C1_ecg_sample_count initSt [0, 0, 0, 0, 0, 0, 0, 0, 0, 0, 1, 2, 3, 4] 1 rfl⟩

/-- Claim C2, counterexample: an ACC frame whose sample region has length 3
(a group of fewer than 6 bytes) makes the handler raise struct.error: the
short tail is not silently dropped. -/
theorem C2_silent_drop_cex :
    (pmd_data_conv initSt [1, 0, 0, 0, 0, 0, 0, 0, 0, 0, 1, 2, 3]).2.2 = true ∧
    (pmd_data_conv initSt [1, 0, 0, 0, 0, 0, 0, 0, 0, 0, 1, 2, 3]).2.1.length = 0 := by
  constructor <;> decide

/-- Claim C2 (amended): for an ACC-tagged payload whose sample region has
length L, the decoder emits exactly floor(L/6) triples, each unpacked as
three little-endian signed 16-bit integers in (X, Y, Z) order at vector
positions 3, 4, 5; but when L is not a multiple of 6 the handler raises a
struct unpack error after those emissions instead of silently dropping the
short tail. -/
theorem C2_acc_sample_count (s : St) (data : List Nat) (i : Nat)
    (h : data.head? = some 1) :
    (pmd_data_conv s data).2.1.length = (data.drop 10).length / 6 ∧
    ((pmd_data_conv s data).2.2 = true ↔ (data.drop 10).length % 6 ≠ 0) ∧
    (i < (data.drop 10).length / 6 →
      (pmd_data_conv s data).2.1[i]? =
        some (s.last_ecg.getD (.num 0) :: s.last_hr.resolve :: s.last_rri.resolve ::
          [.num (fromBytesSigned (((data.drop 10).drop (6 * i)).take 2)),
           .num (fromBytesSigned (((data.drop 10).drop (6 * i + 2)).take 2)),
           .num (fromBytesSigned (((data.drop 10).drop (6 * i + 4)).take 2))])) := by
  match data with
  | [] => simp at h
  | hdr :: rest =>
    have h1 : hdr = 1 := by simpa using h
    subst h1
    have hdrop : ((1 : Nat) :: rest).drop 10 = rest.drop 9 := rfl
    rw [pmd_acc, hdrop]
    obtain ⟨hlen, herr, _, _, _, hidx⟩ := runAcc_spec (rest.drop 9) s
    exact ⟨hlen, herr, fun hi => hidx i hi⟩

/-- Witness for C2 on a 6-byte sample region {1,0,2,0,3,0}: one triple
(1, 2, 3), no error. -/
theorem C2_acc_sample_count_witness :
    (([1, 0, 0, 0, 0, 0, 0, 0, 0, 0, 1, 0, 2, 0, 3, 0] : List Nat).head? = some 1) ∧
    ((pmd_data_conv initSt [1, 0, 0, 0, 0, 0, 0, 0, 0, 0, 1, 0, 2, 0, 3, 0]).2.1.length =
       (([1, 0, 0, 0, 0, 0, 0, 0, 0, 0, 1, 0, 2, 0, 3, 0] : List Nat).drop 10).length / 6 ∧
     ((pmd_data_conv initSt [1, 0, 0, 0, 0, 0, 0, 0, 0, 0, 1, 0, 2, 0, 3, 0]).2.2 = true ↔
       (([1, 0, 0, 0, 0, 0, 0, 0, 0, 0, 1, 0, 2, 0, 3, 0] : List Nat).drop 10).length % 6 ≠ 0) ∧
     (0 < (([1, 0, 0, 0, 0, 0, 0, 0, 0, 0, 1, 0, 2, 0, 3, 0] : List Nat).drop 10).length / 6 →
       (pmd_data_conv initSt [1, 0, 0, 0, 0, 0, 0, 0, 0, 0, 1, 0, 2, 0, 3, 0]).2.1[0]? =
         some (initSt.last_ecg.getD (.num 0) :: initSt.last_hr.resolve :: initSt.last_rri.resolve ::
           [.num (fromBytesSigned
               (((([1, 0, 0, 0, 0, 0, 0, 0, 0, 0, 1, 0, 2, 0, 3, 0] : List Nat).drop 10).drop (6 * 0)).take 2)),
            .num (fromBytesSigned
               (((([1, 0, 0, 0, 0, 0, 0, 0, 0, 0, 1, 0, 2, 0, 3, 0] : List Nat).drop 10).drop (6 * 0 + 2)).take 2)),
            .num (fromBytesSigned
               (((([1, 0, 0, 0, 0, 0, 0, 0, 0, 0, 1, 0, 2, 0, 3, 0] : List Nat).drop 10).drop (6 * 0 + 4)).take 2))]))) :=
  ⟨rfl, C2_acc_sample_count initSt [1, 0, 0, 0, 0, 0, 0, 0, 0, 0, 1, 0, 2, 0, 3, 0] 0 rfl⟩

/-- Claim C6: an ECG frame carrying 10 complete 3-byte samples produces
exactly 10 emissions and no error; the i-th emission's ECG field is the i-th
decoded signed integer, and the remaining five fields are the cache's
NaN-resolved values at frame entry, identical across all 10 emissions. -/
theorem C6_ten_ecg_samples (s : St) (data : List Nat) (i : Nat)
    (h : data.head? = some 0) (hL : (data.drop 10).length = 30) :
    (pmd_data_conv s data).2.2 = false ∧
    (pmd_data_conv s data).2.1.length = 10 ∧
    (i < 10 →
      (pmd_data_conv s data).2.1[i]? =
        some (.num (fromBytesSigned (((data.drop 10).drop (3 * i)).take 3)) ::
          s.last_hr.resolve :: s.last_rri.resolve :: s.last_acc.map PFloat.resolve)) := by
  match data with
  | [] => simp at h
  | hdr :: rest =>
    have h0 : hdr = 0 := by simpa using h
    subst h0
    have hdrop : ((0 : Nat) :: rest).drop 10 = rest.drop 9 := rfl
    rw [hdrop] at hL
    rw [pmd_ecg, hdrop]
    obtain ⟨hlen, _, _, _, hidx⟩ := runEcg_spec (rest.drop 9) s
    rw [hL] at hlen hidx
    exact ⟨rfl, hlen, fun hi => hidx i hi⟩

/-- Witness for C6 on a concrete 40-byte frame (10-byte header, then bytes
1..30 forming 10 samples), checked at the last sample (i = 9). -/
theorem C6_ten_ecg_samples_witness :
    (([0, 0, 0, 0, 0, 0, 0, 0, 0, 0,
       1, 2, 3, 4, 5, 6, 7, 8, 9, 10, 11, 12, 13, 14, 15,
       16, 17, 18, 19, 20, 21, 22, 23, 24, 25, 26, 27, 28, 29, 30] : List Nat).head? = some 0) ∧
    ((([0, 0, 0, 0, 0, 0, 0, 0, 0, 0,
        1, 2, 3, 4, 5, 6, 7, 8, 9, 10, 11, 12, 13, 14, 15,
        16, 17, 18, 19, 20, 21, 22, 23, 24, 25, 26, 27, 28, 29, 30] : List Nat).drop 10).length = 30 ∧
    ((pmd_data_conv initSt [0, 0, 0, 0, 0, 0, 0, 0, 0, 0,
        1, 2, 3, 4, 5, 6, 7, 8, 9, 10, 11, 12, 13, 14, 15,
        16, 17, 18, 19, 20, 21, 22, 23, 24, 25, 26, 27, 28, 29, 30]).2.2 = false ∧
     (pmd_data_conv initSt [0, 0, 0, 0, 0, 0, 0, 0, 0, 0,
        1, 2, 3, 4, 5, 6, 7, 8, 9, 10, 11, 12, 13, 14, 15,
        16, 17, 18, 19, 20, 21, 22, 23, 24, 25, 26, 27, 28, 29, 30]).2.1.length = 10 ∧
     (9 < 10 →
       (pmd_data_conv initSt [0, 0, 0, 0, 0, 0, 0, 0, 0, 0,
          1, 2, 3, 4, 5, 6, 7, 8, 9, 10, 11, 12, 13, 14, 15,
          16, 17, 18, 19, 20, 21, 22, 23, 24, 25, 26, 27, 28, 29, 30]).2.1[9]? =
         some (.num (fromBytesSigned (((([0, 0, 0, 0, 0, 0, 0, 0, 0, 0,
             1, 2, 3, 4, 5, 6, 7, 8, 9, 10, 11, 12, 13, 14, 15,
             16, 17, 18, 19, 20, 21, 22, 23, 24, 25, 26, 27, 28, 29, 30] : List Nat).drop 10).drop
               (3 * 9)).take 3)) ::
           initSt.last_hr.resolve :: initSt.last_rri.resolve ::
           initSt.last_acc.map PFloat.resolve)))) :=
  ⟨rfl, rfl, C6_ten_ecg_samples initSt
    [0, 0, 0, 0, 0, 0, 0, 0, 0, 0,
     1, 2, 3, 4, 5, 6, 7, 8, 9, 10, 11, 12, 13, 14, 15,
     16, 17, 18, 19, 20, 21, 22, 23, 24, 25, 26, 27, 28, 29, 30] 9 rfl rfl⟩

/-- Shape of an hrm_conv branch with the RR loop: the HR push followed by the
RR-loop emissions over the tail l, all facts expressed over the entry state. -/
theorem hrm_tail_facts (s1 : St) (l : List Nat) (hr0 : ℚ) (h : s1.last_hr = .num hr0) :
    (rrLoop (push s1 (s1.last_ecg.getD (.num 0))).1 l).1.last_hr = .num hr0 ∧
    ((push s1 (s1.last_ecg.getD (.num 0))).2 ::
      (rrLoop (push s1 (s1.last_ecg.getD (.num 0))).1 l).2).length = 1 + l.length / 2 ∧
    ∀ j, j < l.length / 2 →
      ((push s1 (s1.last_ecg.getD (.num 0))).2 ::
        (rrLoop (push s1 (s1.last_ecg.getD (.num 0))).1 l).2)[j + 1]? =
        some (s1.last_ecg.getD (.num 0) :: PFloat.num hr0 ::
          .num ((leNat ((l.drop (2 * j)).take 2) : ℚ) / 1024 * 1000) ::
          s1.last_acc.map PFloat.resolve) := by
  obtain ⟨r1, r2, r3, r4, r5⟩ := rrLoop_spec l (push s1 (s1.last_ecg.getD (.num 0))).1
  refine ⟨by rw [r2, push_last_hr, h], by rw [List.length_cons, r1]; omega, ?_⟩
  intro j hj
  rw [List.getElem?_cons_succ, r5 j hj, push_carry, push_last_hr, push_last_acc, h,
    resolve_num]

/-- Claim C8: the session performs, in order, a read of the control channel,
the bit-exact ECG start command, the bit-exact ACC start command, then the
two subscriptions; and on stop both unsubscriptions precede the disconnect. -/
theorem C8_session_order :
    async_connect_trace =
      [BleAction.readGatt PMD_CONTROL,
       BleAction.writeGatt PMD_CONTROL
         [0x02, 0x00, 0x00, 0x01, 0x82, 0x00, 0x01, 0x01, 0x0E, 0x00],
       BleAction.writeGatt PMD_CONTROL
         [0x02, 0x02, 0x00, 0x01, 0xC8, 0x00, 0x01, 0x01, 0x10, 0x00, 0x02, 0x01, 0x08, 0x00],
       BleAction.startNotify PMD_DATA,
       BleAction.startNotify HRM_CHAR,
       BleAction.waitStop,
       BleAction.stopNotify PMD_DATA,
       BleAction.stopNotify HRM_CHAR,
       BleAction.disconnect] := rfl

/-- Claim C9: push emits its ecg argument unchanged as the vector's first
field, but stores it into last_ecg only when it is neither NaN nor 0.0: a
zero sample leaves the cache entirely unchanged, while a nonzero numeric
value is stored for later carry. -/
theorem C9_last_ecg_guard (s : St) (e : PFloat) (q : ℚ) (hq : q ≠ 0) :
    ((push s e).2).head? = some e ∧
    (push s e).1.last_ecg =
      (if e.isnan = false ∧ e ≠ .num 0 then some e else s.last_ecg) ∧
    (push s (.num 0)).1 = s ∧
    ((push s (.num 0)).2).head? = some (.num 0) ∧
    (push s (.num q)).1.last_ecg = some (.num q) := by
  refine ⟨rfl, ?_, ?_, rfl, ?_⟩
  · rw [push_fst]
    split <;> rfl
  · rw [push_fst, if_neg]
    intro hc
    exact hc.2 rfl
  · rw [push_fst, if_pos ⟨rfl, fun hh => hq (PFloat.num.inj hh)⟩]

/-- Witness for C9 at e = 5 and q = 3. -/
theorem C9_last_ecg_guard_witness :
    ((3 : ℚ) ≠ 0) ∧
    (((push initSt (.num 5)).2).head? = some (.num 5) ∧
     (push initSt (.num 5)).1.last_ecg =
       (if (PFloat.num 5).isnan = false ∧ (PFloat.num 5) ≠ .num 0
        then some (.num 5) else initSt.last_ecg) ∧
     (push initSt (.num 0)).1 = initSt ∧
     ((push initSt (.num 0)).2).head? = some (.num 0) ∧
     (push initSt (.num 3)).1.last_ecg = some (.num 3)) :=
  ⟨by norm_num, C9_last_ecg_guard initSt (.num 5) 3 (by norm_num)⟩

/-- Claim C10: with flags bit 0 set the HR read never fails: when fewer than
2 bytes follow the flags byte the short (possibly empty) slice decodes to
its partial value (0 when empty), exactly one emission still occurs and no
error is raised; by contrast a 1-byte payload with bit 0 clear raises an
out-of-range access. -/
theorem C10_short_hr_payloads (s : St) (flags flags2 : Nat) (rest : List Nat)
    (hbit : flags &&& 1 ≠ 0) (hlen : rest.length < 2) (hbit2 : flags2 &&& 1 = 0) :
    (hrm_conv s (flags :: rest)).2.2 = false ∧
    (hrm_conv s (flags :: rest)).2.1.length = 1 ∧
    (hrm_conv s (flags :: rest)).1.last_hr = .num (leNat rest : ℚ) ∧
    (hrm_conv s [flags2]).2.2 = true ∧
    (hrm_conv s [flags2]).2.1 = [] ∧
    (hrm_conv s [flags2]).1 = s := by
  have hflags2 : hrm_conv s [flags2] = (s, [], true) := by
    simp only [hrm_conv]
    rw [if_neg (fun hc => hc hbit2)]
  have hmain : (hrm_conv s (flags :: rest)).2.2 = false ∧
      (hrm_conv s (flags :: rest)).2.1.length = 1 ∧
      (hrm_conv s (flags :: rest)).1.last_hr = .num (leNat rest : ℚ) := by
    have htake : rest.take 2 = rest := List.take_of_length_le (by omega)
    by_cases h16 : flags &&& 16 ≠ 0
    · have hdrop : (rest.drop 2 : List Nat) = [] := List.drop_eq_nil_of_le (by omega)
      simp only [hrm_conv, if_pos hbit, if_pos h16, hdrop, htake, rrLoop]
      exact ⟨trivial, rfl, push_last_hr ..⟩
    · simp only [hrm_conv, if_pos hbit, if_neg h16, htake]
      exact ⟨trivial, rfl, push_last_hr ..⟩
  refine ⟨hmain.1, hmain.2.1, hmain.2.2, ?_, ?_, ?_⟩ <;> rw [hflags2]

/-- Witness for C10: flags 0x01 with a single HR byte 60, and the failing
1-byte payload [0x00]. -/
theorem C10_short_hr_payloads_witness :
    ((1 : Nat) &&& 1 ≠ 0) ∧ (([60] : List Nat).length < 2) ∧ ((0 : Nat) &&& 1 = 0) ∧
    ((hrm_conv initSt [1, 60]).2.2 = false ∧
     (hrm_conv initSt [1, 60]).2.1.length = 1 ∧
     (hrm_conv initSt [1, 60]).1.last_hr = .num (leNat [60] : ℚ) ∧
     (hrm_conv initSt [0]).2.2 = true ∧
     (hrm_conv initSt [0]).2.1 = [] ∧
     (hrm_conv initSt [0]).1 = initSt) :=
  ⟨by decide, by decide, by decide,
   C10_short_hr_payloads initSt 1 0 [60] (by decide) (by decide) (by decide)⟩

/-- Claim C5: decoding the heart-rate payload flags=0x10, HR byte=0x3C,
RR raw=0x000A produces exactly 2 emissions in order (the HR tick, then the
RR tick), decoded HR 60 and decoded RRI 625/64 = 9.765625 ms (about 9.77),
each emission carrying the cache's ECG value. -/
theorem C5_hr_rr_example (s : St) :
    (hrm_conv s [16, 60, 10, 0]).2.1.length = 2 ∧
    (hrm_conv s [16, 60, 10, 0]).2.2 = false ∧
    (hrm_conv s [16, 60, 10, 0]).1.last_hr = .num 60 ∧
    (hrm_conv s [16, 60, 10, 0]).1.last_rri = .num (625 / 64) ∧
    (hrm_conv s [16, 60, 10, 0]).2.1[0]? =
      some (s.last_ecg.getD (.num 0) :: .num 60 :: s.last_rri.resolve ::
        s.last_acc.map PFloat.resolve) ∧
    (hrm_conv s [16, 60, 10, 0]).2.1[1]? =
      some (s.last_ecg.getD (.num 0) :: .num 60 :: .num (625 / 64) ::
        s.last_acc.map PFloat.resolve) := by
  have h1 : ¬((16 : Nat) &&& 1 ≠ 0) := by decide
  have h16 : ((16 : Nat) &&& 16 ≠ 0) := by decide
  have hq : ((leNat [10, 0] : ℚ) / 1024 * 1000) = 625 / 64 := by
    norm_num [leNat]
  simp only [hrm_conv, if_neg h1, if_pos h16, rrLoop, hq, push_snd, push_last_hr,
    push_last_rri, push_last_acc, push_carry, carried, resolve_num, Nat.cast_ofNat]
  refine ⟨rfl, trivial, trivial, trivial, rfl, rfl⟩

/-- Claim C3: byte 0 of a heart-rate payload is the flags byte; with bit 0
clear the HR value is the single byte at offset 1, with bit 0 set it is the
2-byte little-endian value at offset 1; an RR list is decoded iff bit 4 is
set, as consecutive 16-bit little-endian raw values from offset 3 (resp. 2)
until fewer than 2 bytes remain, each raw value v converted to
v / 1024 * 1000 milliseconds. -/
theorem C3_hr_flags_decode (s : St) (flags b : Nat) (rest : List Nat) (j : Nat) :
    (hrm_conv s (flags :: b :: rest)).2.2 = false ∧
    (hrm_conv s (flags :: b :: rest)).1.last_hr =
      (if flags &&& 1 ≠ 0 then PFloat.num (leNat ((b :: rest).take 2) : ℚ)
       else .num (b : ℚ)) ∧
    (hrm_conv s (flags :: b :: rest)).2.1.length =
      1 + (if flags &&& 16 ≠ 0 then
        ((flags :: b :: rest).length - (if flags &&& 1 ≠ 0 then 3 else 2)) / 2 else 0) ∧
    (flags &&& 16 = 0 → (hrm_conv s (flags :: b :: rest)).1.last_rri = s.last_rri) ∧
    (flags &&& 16 ≠ 0 →
      j < ((flags :: b :: rest).length - (if flags &&& 1 ≠ 0 then 3 else 2)) / 2 →
      (hrm_conv s (flags :: b :: rest)).2.1[j + 1]? =
        some (s.last_ecg.getD (.num 0) ::
          (if flags &&& 1 ≠ 0 then PFloat.num (leNat ((b :: rest).take 2) : ℚ)
           else .num (b : ℚ)) ::
          .num ((leNat (((flags :: b :: rest).drop
            ((if flags &&& 1 ≠ 0 then 3 else 2) + 2 * j)).take 2) : ℚ) / 1024 * 1000) ::
          s.last_acc.map PFloat.resolve)) := by
  by_cases h1 : flags &&& 1 ≠ 0 <;> by_cases h16 : flags &&& 16 ≠ 0
  · simp only [hrm_conv, if_pos h1, if_pos h16]
    obtain ⟨t1, t2, t3⟩ := hrm_tail_facts
      ({ s with last_hr := .num (leNat ((b :: rest).take 2) : ℚ) })
      ((b :: rest).drop 2) (leNat ((b :: rest).take 2) : ℚ) rfl
    refine ⟨trivial, t1, ?_, ?_, ?_⟩
    · rw [t2]
      simp only [List.length_drop, List.length_cons]
      omega
    · intro hc
      exact absurd hc h16
    · intro _ hj
      have hjb : j < ((b :: rest).drop 2).length / 2 := by
        simp only [List.length_drop, List.length_cons] at hj ⊢
        omega
      have hv := t3 j hjb
      have hsl : ((b :: rest : List Nat).drop 2).drop (2 * j) =
          (flags :: b :: rest : List Nat).drop (3 + 2 * j) := by
        rw [List.drop_drop]
        have h3 : 3 + 2 * j = (2 + 2 * j) + 1 := by ring
        rw [h3, List.drop_succ_cons]
      rw [hsl] at hv
      exact hv
  · simp only [hrm_conv, if_pos h1, if_neg h16]
    refine ⟨trivial, push_last_hr .., by simp, ?_, ?_⟩
    · intro _
      exact push_last_rri ..
    · intro hc
      exact absurd hc h16
  · simp only [hrm_conv, if_neg h1, if_pos h16]
    obtain ⟨t1, t2, t3⟩ := hrm_tail_facts
      ({ s with last_hr := .num (b : ℚ) }) rest (b : ℚ) rfl
    refine ⟨trivial, t1, ?_, ?_, ?_⟩
    · rw [t2]
      simp only [List.length_cons]
      omega
    · intro hc
      exact absurd hc h16
    · intro _ hj
      have hjb : j < rest.length / 2 := by
        simp only [List.length_cons] at hj
        omega
      have hv := t3 j hjb
      have hsl : (flags :: b :: rest : List Nat).drop (2 + 2 * j) = rest.drop (2 * j) := by
        have h2 : 2 + 2 * j = (2 * j + 1) + 1 := by ring
        rw [h2, List.drop_succ_cons, List.drop_succ_cons]
      rw [← hsl] at hv
      exact hv
  · simp only [hrm_conv, if_neg h1, if_neg h16]
    refine ⟨trivial, push_last_hr .., by simp, ?_, ?_⟩
    · intro _
      exact push_last_rri ..
    · intro hc
      exact absurd hc h16

/-- Claim C4: every vector the session hands to the sink has exactly 6
entries in the fixed order [ECG, HR, RRI, AccX, AccY, AccZ], every entry is
numeric (never NaN), and a never-updated channel resolves to 0 at
vector-construction time; in particular, while no heart-rate notification
has been observed, every emitted vector's HR field (index 1) equals 0. -/
theorem C4_vectors_numeric (events : List Event) (vec : List PFloat)
    (hv : vec ∈ (run initSt events).2) :
    vec.length = 6 ∧ (∀ x ∈ vec, x.isnan = false) ∧
    (noHrm events = true → vec[1]? = some (.num 0)) := by
  obtain ⟨_, hok⟩ := run_spec events initSt initSt_good
  obtain ⟨hlen, hnan⟩ := hok vec hv
  refine ⟨hlen, hnan, ?_⟩
  intro hn
  have hfield := (run_noHrm_hr events initSt hn).2 vec hv
  simpa [initSt, PFloat.resolve, PFloat.isnan] using hfield

/-- Witness for C4 on a run of one ECG frame carrying the sample bytes
[1, 2, 3]. -/
theorem C4_vectors_numeric_witness :
    ([PFloat.num 197121, .num 0, .num 0, .num 0, .num 0, .num 0] ∈
      (run initSt [Event.pmd [0, 0, 0, 0, 0, 0, 0, 0, 0, 0, 1, 2, 3]]).2) ∧
    (([PFloat.num 197121, .num 0, .num 0, .num 0, .num 0, .num 0] : List PFloat).length = 6 ∧
     (∀ x ∈ ([PFloat.num 197121, .num 0, .num 0, .num 0, .num 0, .num 0] : List PFloat),
       x.isnan = false) ∧
     (noHrm [Event.pmd [0, 0, 0, 0, 0, 0, 0, 0, 0, 0, 1, 2, 3]] = true →
       ([PFloat.num 197121, .num 0, .num 0, .num 0, .num 0, .num 0] : List PFloat)[1]? =
         some (.num 0))) :=
  ⟨by decide,
   C4_vectors_numeric [Event.pmd [0, 0, 0, 0, 0, 0, 0, 0, 0, 0, 1, 2, 3]]
     [PFloat.num 197121, .num 0, .num 0, .num 0, .num 0, .num 0] (by decide)⟩

end Polar
